import Mathlib

/-!
Verification development for the NSWS approvals scraper
(src/nsws_scraper.py and src/nsws_scraper2.py).

The Python sources are shallowly embedded as executable Lean definitions:
strings are `String`, Python dicts holding one record are functions
`String -> Option String`, browser pages are structures holding the facts the
scraper queries (heading text, banner text, label matches, controls), and the
CSV sink is a list of written lines.  Each definition carries a comment naming
the source function and lines it embeds.  Whitespace is modelled over the
ASCII range of the regex class backslash-s, which is what the scraped text
exercises.
-/

/-- The ASCII whitespace characters matched by the regex class backslash-s
and stripped by the Python str.strip used in both sources
(space, tab, newline, carriage return, vertical tab, form feed). -/
def isSpace (c : Char) : Bool :=
  c == ' ' || c == '\t' || c == '\n' || c == '\r' ||
  c == Char.ofNat 11 || c == Char.ofNat 12

/-- Does pat occur as a leading prefix of the list (Python str.startswith)? -/
def listStartsWith : List Char → List Char → Bool
  | [], _ => true
  | _ :: _, [] => false
  | p :: ps, c :: cs => if p = c then listStartsWith ps cs else false

/-- Is there any occurrence of the character in the list? -/
def hasGt : List Char → Bool
  | [] => false
  | c :: rest => if c = '>' then true else hasGt rest

/-- Embeds the tag-removal step of clean_text
(src/nsws_scraper.py line 43, src/nsws_scraper2.py line 49):
re.sub of the pattern "open angle, one or more non-close-angle characters,
close angle" by the empty string, scanning left to right.  The second
argument is none when not inside a candidate tag and some buf when the
characters buf have been read since an unmatched open angle bracket. -/
def stripTagsAux : List Char → Option (List Char) → List Char
  | [], none => []
  | [], some buf => '<' :: buf
  | c :: rest, none =>
    if c = '<' then stripTagsAux rest (some [])
    else c :: stripTagsAux rest none
  | c :: rest, some buf =>
    if c = '>' then
      if buf.isEmpty then '<' :: '>' :: stripTagsAux rest none
      else stripTagsAux rest none
    else stripTagsAux rest (some (buf ++ [c]))

/-- Removal of markup tags, as re.sub does it in clean_text. -/
def stripTags (l : List Char) : List Char :=
  stripTagsAux l none

/-- Embeds the whitespace-collapsing step of clean_text
(src/nsws_scraper.py line 44, src/nsws_scraper2.py line 50):
re.sub of "one or more whitespace characters" by a single space.
The flag records whether the previous character was part of a
whitespace run whose single space was already emitted. -/
def collapseWSAux : List Char → Bool → List Char
  | [], _ => []
  | c :: rest, prevWs =>
    if isSpace c then
      if prevWs then collapseWSAux rest true
      else ' ' :: collapseWSAux rest true
    else c :: collapseWSAux rest false

/-- Whitespace collapsing, as re.sub does it in clean_text. -/
def collapseWS (l : List Char) : List Char :=
  collapseWSAux l false

/-- Drop trailing whitespace characters (the right half of Python str.strip). -/
def dropTrailingWS : List Char → List Char
  | [] => []
  | c :: rest =>
    if (dropTrailingWS rest).isEmpty && isSpace c then []
    else c :: dropTrailingWS rest

/-- Python str.strip with no arguments: drop leading and trailing whitespace. -/
def pyStrip (l : List Char) : List Char :=
  dropTrailingWS (l.dropWhile isSpace)

/-- Python str.strip lifted to String, used on banner lines and filter labels. -/
def pyStripStr (s : String) : String :=
  String.mk (pyStrip s.toList)

/-- Embeds clean_text (src/nsws_scraper.py lines 39-44 and the identical
src/nsws_scraper2.py lines 45-50): a falsy (empty) input yields the sentinel
N/A, any other input has markup tags removed, whitespace runs collapsed to a
single space, and the result stripped. -/
def clean_text (text : String) : String :=
  if text = "" then "N/A"
  else String.mk (pyStrip (collapseWS (stripTags text.toList)))

/-! Checkers for the normalization properties the specification claims of
clean_text output.  These are specification-side definitions, not code. -/

/-- The list is empty or starts with a non-whitespace character. -/
def headNotSpace : List Char → Bool
  | [] => true
  | c :: _ => !isSpace c

/-- The list is empty or ends with a non-whitespace character. -/
def lastNotSpace : List Char → Bool
  | [] => true
  | [c] => !isSpace c
  | _ :: c :: rest => lastNotSpace (c :: rest)

/-- Every whitespace character in the list is a plain space that is not
followed by further whitespace: whitespace runs are single spaces. -/
def wsOk : List Char → Bool
  | [] => true
  | c :: rest =>
    (if isSpace c then c == ' ' && headNotSpace rest else true) && wsOk rest

/-- Could the list, placed right after an open angle bracket, complete a
markup tag?  True when it starts with a non-close-angle character and a
close angle bracket occurs later. -/
def tagHead : List Char → Bool
  | [] => false
  | c :: rest => if c = '>' then false else hasGt rest

/-- Does the list contain a substring of markup-tag shape (open angle,
one or more other characters, close angle)? -/
def hasTag : List Char → Bool
  | [] => false
  | c :: rest => (if c = '<' then tagHead rest else false) || hasTag rest

/-- A string is normalized when whitespace runs are single spaces, it is
trimmed on both sides, and no markup-tag-shaped substring remains. -/
def normalizedText (s : String) : Bool :=
  wsOk s.toList && headNotSpace s.toList && lastNotSpace s.toList &&
    !hasTag s.toList

/-! The record model: one Python dict holding a partially built row. -/

/-- A record under construction: the dict data in extract_detail_page,
mapping a column name to its value when the key is present. -/
def RowData : Type := String → Option String

/-- The empty dict at the top of extract_detail_page. -/
def emptyRow : RowData := fun _ => none

/-- One dict assignment, overwriting any earlier value for the key. -/
def dictSet (d : RowData) (k : String) (v : String) : RowData :=
  fun q => if q = k then some v else d q

/-- The CSV schemas (src/nsws_scraper.py lines 16-33, identical in
src/nsws_scraper2.py lines 22-39). -/
def MINISTRY_HEADERS : List String :=
  ["Approval Link", "Approval Name", "Ministry Name", "About this approval",
   "Who can apply", "Documents required", "Approval applicability/trigger",
   "Application Fee", "Validity", "Average Time taken to get this",
   "Can be applied through NSWS"]

/-- Department-phase schema: Department Name in place of Ministry Name. -/
def DEPT_HEADERS : List String :=
  ["Approval Link", "Approval Name", "Department Name", "About this approval",
   "Who can apply", "Documents required", "Approval applicability/trigger",
   "Application Fee", "Validity", "Average Time taken to get this",
   "Can be applied through NSWS"]

/-- Unfiltered-phase schema: both Ministry Name and Department Name. -/
def ALL_HEADERS : List String :=
  ["Approval Link", "Approval Name", "Ministry Name", "Department Name",
   "About this approval", "Who can apply", "Documents required",
   "Approval applicability/trigger", "Application Fee", "Validity",
   "Average Time taken to get this", "Can be applied through NSWS"]

/-! String helpers embedding the Python operations used on page text. -/

/-- Does pat occur anywhere inside the list (the Python operator in)? -/
def occursIn (pat : List Char) : List Char → Bool
  | [] => pat.isEmpty
  | c :: rest => listStartsWith pat (c :: rest) || occursIn pat rest

/-- Python substring containment on String: needle in hay. -/
def substrIn (needle hay : String) : Bool :=
  occursIn needle.toList hay.toList

/-- Remove every occurrence of the nonempty pattern, scanning left to right:
Python text.replace(pat, "").  The fuel argument only drives structural
recursion; each step consumes at least one character, so a fuel of one more
than the list length is never exhausted. -/
def removeOccsFuel (pat : List Char) : Nat → List Char → List Char
  | _, [] => []
  | 0, l => l
  | fuel + 1, c :: rest =>
    if pat.isEmpty then c :: rest
    else if listStartsWith pat (c :: rest) then
      removeOccsFuel pat fuel ((c :: rest).drop pat.length)
    else c :: removeOccsFuel pat fuel rest

/-- Python s.replace(pat, "") for a nonempty pattern, lifted to String. -/
def pyReplaceEmptyStr (s pat : String) : String :=
  String.mk (removeOccsFuel pat.toList (s.toList.length + 1) s.toList)

/-! The detail page model.  A page is described by the answers the scraper
can observe through its locators: the first h1 text, the banner text, for
each section keyword whether a heading-like element contains it and what the
following block reads, for each label pattern the list of textual matches in
document order, and the list of button/anchor controls. -/

/-- One textual match of a label pattern: the inner text of the immediate
parent container of the matched element, and the inner text of the next
sibling element when one exists. -/
structure LabelMatch where
  parentText : String
  nextSiblingText : Option String

/-- One actionable control on the page: a button (isButton) or an anchor
link (not isButton), with its visible text. -/
structure Control where
  isButton : Bool
  text : String

/-- A rendered detail view, as observable by extract_detail_page. -/
structure DetailPage where
  h1Text : Option String
  bannerText : Option String
  sectionHeaderFound : String → Bool
  sectionFollowingText : String → Option String
  labelMatches : String → List LabelMatch
  controls : List Control

/-- Embeds get_section_text (src/nsws_scraper.py lines 95-109): the first
keyword with a matching heading wins; the following block is cleaned, and a
failure of the content lookup yields the N/A sentinel without trying further
keywords. -/
def get_section_text (pg : DetailPage) : List String → String
  | [] => "N/A"
  | kw :: rest =>
    if pg.sectionHeaderFound kw then
      match pg.sectionFollowingText kw with
      | some t => clean_text t
      | none => "N/A"
    else get_section_text pg rest

/-- Embeds get_labeled_value of src/nsws_scraper.py (lines 119-133): for the
first pattern with a textual match, take the last match, read its parent
container text, delete every occurrence of the pattern from it, and clean. -/
def get_labeled_value1 (lm : String → List LabelMatch) :
    List String → String
  | [] => "N/A"
  | p :: rest =>
    match (lm p).getLast? with
    | none => get_labeled_value1 lm rest
    | some m => clean_text (pyReplaceEmptyStr m.parentText p)

/-- Embeds get_labeled_value of src/nsws_scraper2.py (lines 144-162): for the
first pattern with a textual match, take the last match, read its parent
container text, delete every occurrence of the pattern and every colon,
clean; when the cleaned value has fewer than two characters and the match
has a next sibling element, answer that sibling text cleaned instead. -/
def get_labeled_value2 (lm : String → List LabelMatch) :
    List String → String
  | [] => "N/A"
  | p :: rest =>
    match (lm p).getLast? with
    | none => get_labeled_value2 lm rest
    | some m =>
      let cleaned :=
        clean_text (pyReplaceEmptyStr (pyReplaceEmptyStr m.parentText p) ":")
      if cleaned.length < 2 then
        match m.nextSiblingText with
        | some t => clean_text t
        | none => cleaned
      else cleaned

/-- The banner text split into stripped non-empty lines
(src/nsws_scraper.py line 85). -/
def bannerLines (s : String) : List String :=
  ((s.splitOn "\n").map pyStripStr).filter (fun l => !(l == ""))

/-- The banner scan for ministry and department names
(src/nsws_scraper.py lines 86-90): every line containing the token Ministry
overwrites the ministry name and every line containing Department overwrites
the department name, starting from the N/A defaults, so the last matching
line wins. -/
def bannerScan (lines : List String) : String × String :=
  lines.foldl
    (fun md line =>
      (if substrIn "Ministry" line then line else md.1,
       if substrIn "Department" line then line else md.2))
    ("N/A", "N/A")

/-- The count of the locator for apply controls (src/nsws_scraper.py
lines 141-142, src/nsws_scraper2.py line 169): buttons whose text contains
Apply Now, anchors whose text contains Apply Now, and buttons whose text
contains Login to Apply.  Text matching is modelled as substring containment
on the visible text. -/
def apply_btn_count (cs : List Control) : Nat :=
  (cs.filter (fun c =>
    (c.isButton && substrIn "Apply Now" c.text) ||
    (!c.isButton && substrIn "Apply Now" c.text) ||
    (c.isButton && substrIn "Login to Apply" c.text))).length

/-- The points inside the try block of extract_detail_page at which a
navigation or wait operation runs.  atGoto is the page.goto call
(src/nsws_scraper.py line 64); atWaitReady is the selector wait that
follows it (line 66), which sits inside its own try block whose handler
is pass, so a failure there is caught and extraction proceeds. -/
inductive NavFail where
  | atGoto
  | atWaitReady

/-- Is a failure at this navigation or wait point uncaught, that is, does it
reach the outer exception handler of extract_detail_page rather than an
inner one? -/
def uncaughtNavWait : NavFail → Bool
  | NavFail.atGoto => true
  | NavFail.atWaitReady => false

/-- The outer exception handler of extract_detail_page
(src/nsws_scraper.py lines 147-151): every schema column not already present
in the record is set to the sentinel Error. -/
def fillErrors (headers : List String) (d : RowData) : RowData :=
  headers.foldl
    (fun acc k => if (acc k).isSome then acc else dictSet acc k "Error") d

/-- The straight-line field extraction inside the try block of
extract_detail_page (src/nsws_scraper.py lines 70-145), in source order:
link, name from the first h1, ministry and department from the banner lines,
the four section fields, the three labeled scalar fields, and the
NSWS-applicability flag from the apply-control count. -/
def extract_fields (url : String) (pg : DetailPage) : RowData :=
  let d := emptyRow
  let d := dictSet d "Approval Link" url
  let d := dictSet d "Approval Name"
    (match pg.h1Text with
     | some t => clean_text t
     | none => "N/A")
  let banner := pg.bannerText.getD ""
  let md := if banner = "" then ("N/A", "N/A") else bannerScan (bannerLines banner)
  let d := dictSet d "Ministry Name" md.1
  let d := dictSet d "Department Name" md.2
  let d := dictSet d "About this approval"
    (get_section_text pg ["About", "Brief", "Description"])
  let d := dictSet d "Who can apply"
    (get_section_text pg ["Who can", "Eligibility"])
  let d := dictSet d "Documents required"
    (get_section_text pg ["Documents", "Enclosures", "Attachment"])
  let d := dictSet d "Approval applicability/trigger"
    (get_section_text pg ["Applicability", "Trigger"])
  let d := dictSet d "Application Fee"
    (get_labeled_value1 pg.labelMatches ["Fee", "Payment", "Cost"])
  let d := dictSet d "Validity"
    (get_labeled_value1 pg.labelMatches ["Validity", "Valid For"])
  let d := dictSet d "Average Time taken to get this"
    (get_labeled_value1 pg.labelMatches ["Time", "Timeline", "SLA"])
  let d := dictSet d "Can be applied through NSWS"
    (if 0 < apply_btn_count pg.controls then "Yes" else "No (Information Only)")
  d

/-- Embeds extract_detail_page (src/nsws_scraper.py lines 54-156).  The last
argument injects at most one failing navigation or wait point.  A failure at
the goto call is raised before any field assignment and lands in the outer
handler, which fills every schema column with the Error sentinel; a failure
at the ready wait is caught by the inner handler and extraction proceeds.
The function always returns a record: nothing propagates, and the secondary
page is closed in the finally block, outside this data model. -/
def extract_detail_page (url : String) (pg : DetailPage)
    (failAt : Option NavFail) : RowData :=
  match failAt with
  | some NavFail.atGoto => fillErrors ALL_HEADERS emptyRow
  | some NavFail.atWaitReady => extract_fields url pg
  | none => extract_fields url pg

/-! The per-card row pipeline of handle_pagination_and_extraction. -/

/-- The extra_fields_map overlay (src/nsws_scraper.py lines 185-187):
each forced key-value pair is assigned into the extracted record. -/
def applyExtras (extra : List (String × String)) (d : RowData) : RowData :=
  extra.foldl (fun acc kv => dictSet acc kv.1 kv.2) d

/-- The safe_row projection (src/nsws_scraper.py line 190, identical in
src/nsws_scraper2.py line 222): the written row has exactly the schema
columns, each taken from the record when present and from the N/A sentinel
otherwise. -/
def safe_row (headers : List String) (row_data : RowData) :
    List (String × String) :=
  headers.map (fun k => (k, (row_data k).getD "N/A"))

/-- Lookup of a column in a written row (csv.DictWriter reads the row dict
by fieldname; the written row is an association list in schema order). -/
def rowLookup (k : String) : List (String × String) → Option String
  | [] => none
  | kv :: rest => if kv.1 = k then some kv.2 else rowLookup k rest

/-! The output sink model for write_to_csv. -/

/-- One line of a sink file: the header row or one record row. -/
inductive CsvLine where
  | headerRow (cols : List String)
  | dataRow (row : List (String × String))

/-- Embeds write_to_csv (src/nsws_scraper.py lines 46-52, identical in
src/nsws_scraper2.py lines 52-58).  The file state is none when the path
does not exist.  The file is opened in append mode; the header row is
written only when the file did not exist at write time, then the record
row is appended.  The result is the new file content. -/
def write_to_csv (file : Option (List CsvLine)) (headers : List String)
    (row : List (String × String)) : List CsvLine :=
  match file with
  | none => [CsvLine.headerRow headers, CsvLine.dataRow row]
  | some ls => ls ++ [CsvLine.dataRow row]

/-- A run of successive write_to_csv calls against one sink path, threading
the file state: the final file content. -/
def runWrites (headers : List String) :
    Option (List CsvLine) → List (List (String × String)) →
    Option (List CsvLine)
  | file, [] => file
  | file, r :: rs => runWrites headers (some (write_to_csv file headers r)) rs

/-- The number of header rows emitted during a run of write_to_csv calls:
one for a write that finds the file absent, none otherwise. -/
def headerRowsWritten (headers : List String) :
    Option (List CsvLine) → List (List (String × String)) → Nat
  | _, [] => 0
  | none, r :: rs =>
    1 + headerRowsWritten headers (some (write_to_csv none headers r)) rs
  | some ls, r :: rs =>
    headerRowsWritten headers (some (write_to_csv (some ls) headers r)) rs

/-! The pagination walk of handle_pagination_and_extraction.  A simulated
results sequence is a list of rendered pages; per-card work is modelled by
the pipeline above, so the walk here records only how many pages the loop
enters before it terminates. -/

/-- The next-page control: the pagination list item, with its disabled class
marker and whether a clickable anchor or button sits inside it. -/
structure NextCtl where
  disabled : Bool
  hasAnchor : Bool

/-- One rendered results page: the result cards (each reduced to the href of
its first link, when present) and the next-page control when one exists. -/
structure ResultsPage where
  cards : List (Option String)
  next : Option NextCtl

/-- Can the walk advance past this page?  True when the next-page control
exists, does not carry the disabled marker, and contains a clickable. -/
def enabledNext (p : ResultsPage) : Bool :=
  match p.next with
  | none => false
  | some c => !c.disabled && c.hasAnchor

/-- Is this page terminal for the walk: next-page control absent or
carrying the disabled class marker? -/
def terminalNext (p : ResultsPage) : Bool :=
  match p.next with
  | none => true
  | some c => c.disabled

/-- Embeds the page loop of handle_pagination_and_extraction of
src/nsws_scraper.py (lines 163-218): each iteration processes the cards of
the current page, then breaks when the pagination control is absent or
disabled, breaks when no clickable sits inside it, and otherwise clicks
through to the next rendered page.  The value is the number of loop
iterations entered (pages visited). -/
def handle_pagination_visits_v1 : List ResultsPage → Nat
  | [] => 0
  | p :: rest =>
    1 + (match p.next with
         | none => 0
         | some c =>
           if c.disabled then 0
           else if c.hasAnchor then handle_pagination_visits_v1 rest else 0)

/-- Embeds the page loop of handle_pagination_and_extraction of
src/nsws_scraper2.py (lines 183-261): unlike the first variant, each
iteration first waits for a card to appear and breaks out of the whole walk
when the page renders no cards (lines 192-196); otherwise it proceeds as
the first variant does. -/
def handle_pagination_visits_v2 : List ResultsPage → Nat
  | [] => 0
  | p :: rest =>
    if p.cards.isEmpty then 1
    else
      1 + (match p.next with
           | none => 0
           | some c =>
             if c.disabled then 0
             else if c.hasAnchor then handle_pagination_visits_v2 rest else 0)

/-- The shape of results sequence quantified over by the pagination
termination claim: at least one page, every non-final page with a present,
enabled, clickable next control, and the final page terminal. -/
def goodChain : List ResultsPage → Bool
  | [] => false
  | [p] => terminalNext p
  | p :: rest => enabledNext p && goodChain rest

/-- Does every page of the sequence render at least one card? -/
def allPagesHaveCards (ps : List ResultsPage) : Bool :=
  ps.all (fun p => !p.cards.isEmpty)

/-! The filter iteration of click_filter_and_process.  Playwright locators
are queries that re-resolve against the live document each time they are
used, so the model threads a view generation that page.reload increments,
and records, for each option that is clicked and processed, the generation
of the view its locator chain resolved against at that moment. -/

/-- One step of the filter loop: option i was applied and processed against
the view of generation resolvedGen, or processing option i raised and the
recovery reloaded the view, whose generation is then reloadedGen. -/
inductive FilterEvent where
  | processed (i : Nat) (resolvedGen : Nat)
  | recovered (i : Nat) (reloadedGen : Nat)

/-- The option index an event concerns. -/
def eventIdx : FilterEvent → Nat
  | FilterEvent.processed i _ => i
  | FilterEvent.recovered i _ => i

/-- Did the event record a failure and recovery? -/
def eventIsRecovered : FilterEvent → Bool
  | FilterEvent.processed _ _ => false
  | FilterEvent.recovered _ _ => true

/-- Embeds the option loop of click_filter_and_process
(src/nsws_scraper.py lines 258-293 and src/nsws_scraper2.py lines 293-326).
The oracle fails says whether applying or processing option i raises.  On
success the option is clicked, walked and unchecked against the current
view; on failure the handler reloads the view (generation plus one), sleeps
a bounded recovery period, re-derives the container and checkbox locators
(first variant, lines 289-293) or re-derives only the checkbox locator from
the earlier container chain (second variant, lines 323-326) - under
locator-re-resolution semantics both enumerate the options from the
reloaded view - and the for loop moves on to the next index, never
returning to the failed one. -/
def click_filter_loop (fails : Nat → Bool) : Nat → List Nat → List FilterEvent
  | _, [] => []
  | g, i :: rest =>
    if fails i then
      FilterEvent.recovered i (g + 1) :: click_filter_loop fails (g + 1) rest
    else
      FilterEvent.processed i g :: click_filter_loop fails g rest

/-- Embeds click_filter_and_process: iterate the filter options of the group
in enumeration order, starting from the freshly loaded view. -/
def click_filter_and_process (fails : Nat → Bool) (total : Nat) :
    List FilterEvent :=
  click_filter_loop fails 0 (List.range total)

/-- Checker that a trace of filter events always works against the latest
view: every processed option resolved against the current generation, and
every recovery bumped the generation by the reload. -/
def freshlyResolved : Nat → List FilterEvent → Bool
  | _, [] => true
  | g, FilterEvent.processed _ rg :: rest =>
    rg == g && freshlyResolved g rest
  | g, FilterEvent.recovered _ rg :: rest =>
    rg == g + 1 && freshlyResolved rg rest

/-- Checker that the trace recovers exactly at the options whose processing
raises, and processes exactly the others. -/
def kindsMatch (fails : Nat → Bool) (evs : List FilterEvent) : Bool :=
  evs.all (fun ev => eventIsRecovered ev == fails (eventIdx ev))

/-! Specification-side definitions: restatements of claim wording, to be
compared against the embedded code. -/

/-- Remove the first occurrence of the nonempty label token together with
one colon immediately following it, leaving the rest of the text unchanged:
the labeled-value stripping step exactly as the claim words it
("strips the label token and a trailing colon"). -/
def removeLabelColonOnce (pat : List Char) : List Char → List Char
  | [] => []
  | c :: rest =>
    if !pat.isEmpty && listStartsWith pat (c :: rest) then
      match (c :: rest).drop pat.length with
      | ':' :: after => after
      | after => after
    else c :: removeLabelColonOnce pat rest

/-- The labeled-value extraction exactly as the claim words it: first
pattern with a textual match, last match, container text with the label
token and a trailing colon stripped, whitespace normalized, and the
next-sibling fallback when the stripped result has fewer than two
characters. -/
def get_labeled_value_claimed (lm : String → List LabelMatch) :
    List String → String
  | [] => "N/A"
  | p :: rest =>
    match (lm p).getLast? with
    | none => get_labeled_value_claimed lm rest
    | some m =>
      let cleaned :=
        clean_text (String.mk (removeLabelColonOnce p.toList m.parentText.toList))
      if cleaned.length < 2 then
        match m.nextSiblingText with
        | some t => clean_text t
        | none => cleaned
      else cleaned

/-- The labeled-value extraction as amended: the first pattern with at least
one textual match wins, the last match is read, and every occurrence of the
label token and every colon character is deleted from its container text
before normalization, with the same short-result fallback. -/
def labeledValueAmendedSpec (lm : String → List LabelMatch)
    (pats : List String) : String :=
  match pats.find? (fun p => !(lm p).isEmpty) with
  | none => "N/A"
  | some p =>
    match (lm p).getLast? with
    | none => "N/A"
    | some m =>
      let cleaned :=
        clean_text (pyReplaceEmptyStr (pyReplaceEmptyStr m.parentText p) ":")
      if cleaned.length < 2 then
        match m.nextSiblingText with
        | some t => clean_text t
        | none => cleaned
      else cleaned

/-- The NSWS-applicability condition exactly as the claim words it: some
actionable control, button or link, whose visible label is the string
Apply Now or the string Login to Apply. -/
def claimedApplyPred (cs : List Control) : Bool :=
  cs.any (fun c => c.text == "Apply Now" || c.text == "Login to Apply")

/-- The NSWS-applicability condition as amended: a button whose visible text
contains Apply Now or Login to Apply, or an anchor link whose visible text
contains Apply Now; an anchor labelled Login to Apply does not count. -/
def amendedApplyPred (cs : List Control) : Bool :=
  cs.any (fun c =>
    if c.isButton then
      substrIn "Apply Now" c.text || substrIn "Login to Apply" c.text
    else substrIn "Apply Now" c.text)

/-! Concrete fixtures used by witnesses and counterexamples. -/

/-- A detail page with no heading, no banner, no sections, no label matches
and no controls. -/
def blankPage : DetailPage :=
  { h1Text := none
    bannerText := none
    sectionHeaderFound := fun _ => false
    sectionFollowingText := fun _ => none
    labelMatches := fun _ => []
    controls := [] }

/-- A detail page whose only actionable control is an anchor link labelled
Login to Apply. -/
def loginLinkPage : DetailPage :=
  { h1Text := none
    bannerText := none
    sectionHeaderFound := fun _ => false
    sectionFollowingText := fun _ => none
    labelMatches := fun _ => []
    controls := [{ isButton := false, text := "Login to Apply" }] }

/-- Label-match oracle with a single match for the pattern Fee whose
container text holds a colon inside the value. -/
def feeColonMatches : String → List LabelMatch :=
  fun p =>
    if p = "Fee" then [{ parentText := "Fee: 10:30 AM", nextSiblingText := none }]
    else []

/-- A two-page simulated results sequence whose first page renders no cards
and carries an enabled next control, and whose second page is terminal. -/
def cexPages : List ResultsPage :=
  [{ cards := [], next := some { disabled := false, hasAnchor := true } },
   { cards := [], next := none }]

/-- A two-page simulated results sequence with cards on both pages, an
enabled next control on the first and a disabled one on the second. -/
def goodPages : List ResultsPage :=
  [{ cards := [some "u1"], next := some { disabled := false, hasAnchor := true } },
   { cards := [some "u2"], next := some { disabled := true, hasAnchor := true } }]

/-- A record whose banner-derived ministry name is X and department name is
D0, used to exercise the forced-field overlay and the schema projection. -/
def bannerNamesRow : RowData :=
  dictSet (dictSet emptyRow "Department Name" "D0") "Ministry Name" "X"

/-! Helper lemmas about the normalization pipeline. -/

/-- A list without close angle brackets cannot complete a tag. -/
theorem tagHead_of_no_gt (l : List Char) (h : hasGt l = false) :
    tagHead l = false := by
  cases l with
  | nil => rfl
  | cons c rest =>
    simp only [hasGt] at h
    simp only [tagHead]
    split at h
    · exact absurd h (by simp)
    · simp [h]

/-- A list without close angle brackets contains no tag. -/
theorem hasTag_of_no_gt (l : List Char) (h : hasGt l = false) :
    hasTag l = false := by
  induction l with
  | nil => rfl
  | cons c rest ih =>
    simp only [hasGt] at h
    split at h
    · exact absurd h (by simp)
    · simp only [hasTag, Bool.or_eq_false_iff]
      refine ⟨?_, ih h⟩
      split
      · exact tagHead_of_no_gt rest h
      · rfl

/-- hasGt distributes over append. -/
theorem hasGt_append (l1 l2 : List Char) :
    hasGt (l1 ++ l2) = (hasGt l1 || hasGt l2) := by
  induction l1 with
  | nil => simp [hasGt]
  | cons c rest ih =>
    simp only [List.cons_append, hasGt, ih]
    split <;> simp [ih]

/-- The tag-removal scan never leaves a tag-shaped substring behind, for any
buffer state that holds no close angle bracket. -/
theorem hasTag_stripTagsAux (l : List Char) :
    ∀ st : Option (List Char),
      (∀ buf, st = some buf → hasGt buf = false) →
      hasTag (stripTagsAux l st) = false := by
  induction l with
  | nil =>
    intro st h
    match st with
    | none => rfl
    | some buf =>
      have hbuf := h buf rfl
      simp only [stripTagsAux, hasTag]
      simp [tagHead_of_no_gt buf hbuf, hasTag_of_no_gt buf hbuf]
  | cons c rest ih =>
    intro st h
    match st with
    | none =>
      simp only [stripTagsAux]
      by_cases hc : c = '<'
      · simp only [hc, if_pos rfl]
        exact ih (some []) (by intro buf hb; cases hb; rfl)
      · rw [if_neg hc]
        simp only [hasTag, hc, if_false]
        simp [ih none (by intro buf hb; cases hb)]
    | some buf =>
      have hbuf := h buf rfl
      simp only [stripTagsAux]
      by_cases hc : c = '>'
      · rw [if_pos hc]
        by_cases hb : buf.isEmpty
        · rw [if_pos hb]
          simp only [hasTag, tagHead]
          simp [ih none (by intro b hb2; cases hb2)]
        · rw [if_neg hb]
          exact ih none (by intro b hb2; cases hb2)
      · rw [if_neg hc]
        refine ih (some (buf ++ [c])) ?_
        intro b hb2
        cases hb2
        rw [hasGt_append, hbuf]
        simp [hasGt, hc]

/-- Raw markup-tag removal leaves no tag-shaped substring. -/
theorem hasTag_stripTags (l : List Char) : hasTag (stripTags l) = false :=
  hasTag_stripTagsAux l none (by intro buf hb; cases hb)

/-- Whitespace collapsing introduces no close angle bracket. -/
theorem hasGt_collapseWSAux (l : List Char) :
    ∀ b : Bool, hasGt l = false → hasGt (collapseWSAux l b) = false := by
  induction l with
  | nil => intro b _; rfl
  | cons c rest ih =>
    intro b h
    simp only [hasGt] at h
    split at h
    · exact absurd h (by simp)
    · rename_i hc
      simp only [collapseWSAux]
      by_cases hs : isSpace c
      · rw [if_pos hs]
        by_cases hb : b
        · rw [if_pos hb]; exact ih true h
        · rw [if_neg hb]
          simp only [hasGt]
          rw [if_neg (by decide : ¬(' ' = '>'))]
          exact ih true h
      · rw [if_neg hs]
        simp only [hasGt, hc, if_false]
        exact ih false h

/-- Whitespace collapsing cannot enable a tag completion. -/
theorem tagHead_collapseWSAux (l : List Char) (b : Bool)
    (h : tagHead l = false) : tagHead (collapseWSAux l b) = false := by
  cases l with
  | nil => rfl
  | cons c rest =>
    simp only [tagHead] at h
    by_cases hc : c = '>'
    · subst hc
      simp only [collapseWSAux, if_neg (by decide : ¬(isSpace '>' = true))]
      simp [tagHead]
    · rw [if_neg hc] at h
      simp only [collapseWSAux]
      by_cases hs : isSpace c
      · rw [if_pos hs]
        by_cases hb : b
        · rw [if_pos hb]
          exact tagHead_of_no_gt _ (hasGt_collapseWSAux rest true h)
        · rw [if_neg hb]
          simp only [tagHead]
          rw [if_neg (by decide : ¬(' ' = '>'))]
          exact hasGt_collapseWSAux rest true h
      · rw [if_neg hs]
        simp only [tagHead]
        rw [if_neg hc]
        exact hasGt_collapseWSAux rest false h

/-- Whitespace collapsing preserves tag-freeness. -/
theorem hasTag_collapseWSAux (l : List Char) :
    ∀ b : Bool, hasTag l = false → hasTag (collapseWSAux l b) = false := by
  induction l with
  | nil => intro b _; rfl
  | cons c rest ih =>
    intro b h
    simp only [hasTag, Bool.or_eq_false_iff] at h
    obtain ⟨h1, h2⟩ := h
    simp only [collapseWSAux]
    by_cases hs : isSpace c
    · rw [if_pos hs]
      by_cases hb : b
      · rw [if_pos hb]; exact ih true h2
      · rw [if_neg hb]
        simp only [hasTag, Bool.or_eq_false_iff]
        exact ⟨by rw [if_neg (by decide : ¬(' ' = '<'))], ih true h2⟩
    · rw [if_neg hs]
      simp only [hasTag, Bool.or_eq_false_iff]
      refine ⟨?_, ih false h2⟩
      by_cases hc : c = '<'
      · rw [if_pos hc]
        rw [if_pos hc] at h1
        exact tagHead_collapseWSAux rest false h1
      · rw [if_neg hc]

/-- Tag-freeness passes to any tail. -/
theorem hasTag_tail (c : Char) (rest : List Char)
    (h : hasTag (c :: rest) = false) : hasTag rest = false := by
  simp only [hasTag, Bool.or_eq_false_iff] at h
  exact h.2

/-- Dropping leading whitespace preserves tag-freeness. -/
theorem hasTag_dropWhile (l : List Char) (h : hasTag l = false) :
    hasTag (l.dropWhile isSpace) = false := by
  induction l with
  | nil => exact h
  | cons c rest ih =>
    simp only [List.dropWhile]
    by_cases hs : isSpace c
    · simp only [hs, if_true]
      exact ih (hasTag_tail c rest h)
    · simp only [hs, if_false]
      exact h

/-- Dropping trailing whitespace introduces no close angle bracket. -/
theorem hasGt_dropTrailingWS (l : List Char) (h : hasGt l = false) :
    hasGt (dropTrailingWS l) = false := by
  induction l with
  | nil => exact h
  | cons c rest ih =>
    simp only [hasGt] at h
    split at h
    · exact absurd h (by simp)
    · rename_i hc
      simp only [dropTrailingWS]
      split
      · rfl
      · simp only [hasGt, hc, if_false]
        exact ih h

/-- Dropping trailing whitespace cannot enable a tag completion. -/
theorem tagHead_dropTrailingWS (l : List Char) (h : tagHead l = false) :
    tagHead (dropTrailingWS l) = false := by
  cases l with
  | nil => exact h
  | cons c rest =>
    simp only [tagHead] at h
    simp only [dropTrailingWS]
    split
    · rfl
    · simp only [tagHead]
      by_cases hc : c = '>'
      · rw [if_pos hc]
      · rw [if_neg hc]
        rw [if_neg hc] at h
        exact hasGt_dropTrailingWS rest h

/-- Dropping trailing whitespace preserves tag-freeness. -/
theorem hasTag_dropTrailingWS (l : List Char) (h : hasTag l = false) :
    hasTag (dropTrailingWS l) = false := by
  induction l with
  | nil => exact h
  | cons c rest ih =>
    simp only [hasTag, Bool.or_eq_false_iff] at h
    obtain ⟨h1, h2⟩ := h
    simp only [dropTrailingWS]
    split
    · rfl
    · simp only [hasTag, Bool.or_eq_false_iff]
      refine ⟨?_, ih h2⟩
      by_cases hc : c = '<'
      · rw [if_pos hc]
        rw [if_pos hc] at h1
        exact tagHead_dropTrailingWS rest h1
      · rw [if_neg hc]

/-- The output of the collapse scan in the already-emitted-space state
starts with a non-whitespace character. -/
theorem headNotSpace_collapseWSAux (l : List Char) :
    headNotSpace (collapseWSAux l true) = true := by
  induction l with
  | nil => rfl
  | cons c rest ih =>
    simp only [collapseWSAux]
    by_cases hs : isSpace c
    · rw [if_pos hs]
      simp only [if_true]
      exact ih
    · rw [if_neg hs]
      simp [headNotSpace, hs]

/-- The collapse scan emits single plain spaces only. -/
theorem wsOk_collapseWSAux (l : List Char) :
    ∀ b : Bool, wsOk (collapseWSAux l b) = true := by
  induction l with
  | nil => intro b; rfl
  | cons c rest ih =>
    intro b
    simp only [collapseWSAux]
    by_cases hs : isSpace c
    · rw [if_pos hs]
      by_cases hb : b
      · rw [if_pos hb]; exact ih true
      · rw [if_neg hb]
        simp only [wsOk]
        rw [if_pos (by decide : isSpace ' ' = true)]
        simp [headNotSpace_collapseWSAux, ih true]
    · rw [if_neg hs]
      simp only [wsOk]
      rw [if_neg hs]
      simp [ih false]

/-- Single-space discipline passes to any tail. -/
theorem wsOk_tail (c : Char) (rest : List Char) (h : wsOk (c :: rest) = true) :
    wsOk rest = true := by
  simp only [wsOk, Bool.and_eq_true] at h
  exact h.2

/-- Dropping leading whitespace preserves the single-space discipline. -/
theorem wsOk_dropWhile (l : List Char) (h : wsOk l = true) :
    wsOk (l.dropWhile isSpace) = true := by
  induction l with
  | nil => exact h
  | cons c rest ih =>
    simp only [List.dropWhile]
    by_cases hs : isSpace c
    · simp only [hs, if_true]
      exact ih (wsOk_tail c rest h)
    · simp only [hs, if_false]
      exact h

/-- Dropping trailing whitespace keeps a non-whitespace head. -/
theorem headNotSpace_dropTrailingWS (l : List Char)
    (h : headNotSpace l = true) : headNotSpace (dropTrailingWS l) = true := by
  cases l with
  | nil => exact h
  | cons c rest =>
    simp only [dropTrailingWS]
    split
    · rfl
    · simp only [headNotSpace] at h ⊢
      exact h

/-- Dropping trailing whitespace preserves the single-space discipline. -/
theorem wsOk_dropTrailingWS (l : List Char) (h : wsOk l = true) :
    wsOk (dropTrailingWS l) = true := by
  induction l with
  | nil => exact h
  | cons c rest ih =>
    simp only [wsOk, Bool.and_eq_true] at h
    obtain ⟨h1, h2⟩ := h
    simp only [dropTrailingWS]
    split
    · rfl
    · simp only [wsOk, Bool.and_eq_true]
      refine ⟨?_, ih h2⟩
      by_cases hs : isSpace c
      · rw [if_pos hs]
        rw [if_pos hs] at h1
        simp only [Bool.and_eq_true] at h1 ⊢
        exact ⟨h1.1, headNotSpace_dropTrailingWS rest h1.2⟩
      · rw [if_neg hs]

/-- Dropping trailing whitespace leaves a non-whitespace last character. -/
theorem lastNotSpace_dropTrailingWS (l : List Char) :
    lastNotSpace (dropTrailingWS l) = true := by
  induction l with
  | nil => rfl
  | cons c rest ih =>
    simp only [dropTrailingWS]
    split
    · rfl
    · rename_i hcond
      cases hr : dropTrailingWS rest with
      | nil =>
        rw [hr] at hcond
        simp only [List.isEmpty_nil, Bool.true_and] at hcond
        simp only [lastNotSpace]
        simp [hcond]
      | cons d t =>
        rw [hr] at ih
        simp only [lastNotSpace]
        exact ih

/-- After dropping leading whitespace the head is not whitespace. -/
theorem headNotSpace_dropWhile (l : List Char) :
    headNotSpace (l.dropWhile isSpace) = true := by
  induction l with
  | nil => rfl
  | cons c rest ih =>
    simp only [List.dropWhile]
    by_cases hs : isSpace c
    · simp only [hs, if_true]
      exact ih
    · simp only [hs, if_false, headNotSpace]
      simp [hs]

/-- Claim C2, counterexample.  The claim states that for every input string
clean_text returns either the sentinel N/A or a non-empty normalized string.
On the one-space input the code returns the empty string, which is neither:
the guard only catches falsy input, and a whitespace-only string is truthy
yet strips to nothing. -/
theorem c2_clean_text_empty_counterexample :
    ¬(clean_text " " = "N/A" ∨ clean_text " " ≠ "") := by
  decide

/-- Claim C2, amended: for every input string, clean_text returns a
normalized string, with markup-tag shapes removed, whitespace runs collapsed
to single plain spaces, and no leading or trailing whitespace, and maps the
empty input to the sentinel N/A; the result may however be the empty string
(a non-empty input consisting only of whitespace and markup strips to
nothing), so non-emptiness is not guaranteed. -/
theorem c2_clean_text_normalized_amended (s : String) :
    normalizedText (clean_text s) = true ∧ clean_text "" = "N/A" := by
  refine ⟨?_, rfl⟩
  by_cases hs : s = ""
  · subst hs
    decide
  · have hval : clean_text s =
        String.mk (pyStrip (collapseWS (stripTags s.toList))) := by
      simp [clean_text, hs]
    rw [hval]
    simp only [normalizedText, String.toList, pyStrip, collapseWS]
    have hws := wsOk_dropTrailingWS _
      (wsOk_dropWhile _ (wsOk_collapseWSAux (stripTags s.toList) false))
    have hhead := headNotSpace_dropTrailingWS _
      (headNotSpace_dropWhile (collapseWSAux (stripTags s.toList) false))
    have hlast := lastNotSpace_dropTrailingWS
      ((collapseWSAux (stripTags s.toList) false).dropWhile isSpace)
    have htag := hasTag_dropTrailingWS _
      (hasTag_dropWhile _
        (hasTag_collapseWSAux _ false (hasTag_stripTags s.toList)))
    simp only [Bool.and_eq_true, Bool.not_eq_true']
    exact ⟨⟨⟨hws, hhead⟩, hlast⟩, htag⟩

/-- Claim C3, counterexample.  The claim describes the stripping step as
removing the label token and a trailing colon.  On a page whose only Fee
match has container text "Fee: 10:30 AM", the code deletes every colon
(and every occurrence of the token), answering "1030 AM", while the
extraction described by the claim answers "10:30 AM". -/
theorem c3_labeled_value_colon_counterexample :
    get_labeled_value2 feeColonMatches ["Fee"] ≠
      get_labeled_value_claimed feeColonMatches ["Fee"] := by
  decide

/-- Claim C3, amended: for each labeled scalar field, extraction tries the
label patterns in order; for the first pattern with at least one textual
match it takes the last match, reads its immediate container text, removes
every occurrence of the label token and every colon character (not only a
trailing one), normalizes the result, and falls back to the next sibling
element text when the stripped result has fewer than two characters.
Proved as an equality between the embedded get_labeled_value of
src/nsws_scraper2.py and the amended declarative description. -/
theorem c3_labeled_value_amended (lm : String → List LabelMatch)
    (pats : List String) :
    get_labeled_value2 lm pats = labeledValueAmendedSpec lm pats := by
  induction pats with
  | nil => rfl
  | cons p rest ih =>
    cases hlm : lm p with
    | nil =>
      have h1 : get_labeled_value2 lm (p :: rest) = get_labeled_value2 lm rest := by
        simp only [get_labeled_value2, hlm, List.getLast?_nil]
      have h2 : labeledValueAmendedSpec lm (p :: rest) =
          labeledValueAmendedSpec lm rest := by
        simp only [labeledValueAmendedSpec, List.find?, hlm, List.isEmpty_nil,
          Bool.not_true]
      rw [h1, h2, ih]
    | cons a t =>
      obtain ⟨m, hm⟩ : ∃ m, (lm p).getLast? = some m := by
        rw [hlm]
        cases hgl : (a :: t).getLast? with
        | none => exact absurd (List.getLast?_eq_none_iff.mp hgl) (by simp)
        | some m => exact ⟨m, rfl⟩
      have hne : (lm p).isEmpty = false := by rw [hlm]; rfl
      simp only [get_labeled_value2, labeledValueAmendedSpec, List.find?, hne,
        Bool.not_false, hm]

/-- The apply-control count of the source locator is positive exactly when
the amended predicate holds. -/
theorem apply_pos_iff (cs : List Control) :
    0 < apply_btn_count cs ↔ amendedApplyPred cs = true := by
  induction cs with
  | nil => simp [apply_btn_count, amendedApplyPred]
  | cons c rest ih =>
    obtain ⟨hb, t⟩ := c
    simp only [apply_btn_count, amendedApplyPred, List.filter_cons,
      List.any_cons] at ih ⊢
    cases hb <;> cases h1 : substrIn "Apply Now" t <;>
      cases h2 : substrIn "Login to Apply" t <;>
      simp [h1, h2, ih]

/-- Claim C5, counterexample.  The claim states the NSWS-applicability flag
is Yes exactly when an actionable control, button or link, is labelled
Apply Now or Login to Apply.  On a page whose only control is an anchor link
labelled Login to Apply, the claim condition holds, yet the code answers
No (Information Only): the locator union covers buttons for both labels but
anchors only for Apply Now. -/
theorem c5_login_link_counterexample :
    claimedApplyPred loginLinkPage.controls = true ∧
      extract_detail_page "u" loginLinkPage none "Can be applied through NSWS"
        = some "No (Information Only)" := by
  constructor
  · decide
  · decide

/-- Claim C5, amended: the NSWS-applicability field of an extracted record
is Yes exactly when the page has a button whose visible text contains
Apply Now or Login to Apply, or an anchor link whose visible text contains
Apply Now; in every other case, in particular for an anchor labelled
Login to Apply, it is exactly No (Information Only). -/
theorem c5_apply_control_amended (url : String) (pg : DetailPage) :
    extract_detail_page url pg none "Can be applied through NSWS" =
      some (if amendedApplyPred pg.controls then "Yes"
            else "No (Information Only)") := by
  show (extract_fields url pg) "Can be applied through NSWS" = _
  simp only [extract_fields, dictSet, if_true]
  by_cases h : amendedApplyPred pg.controls = true
  · rw [if_pos ((apply_pos_iff pg.controls).mpr h), if_pos h]
  · rw [if_neg (fun hc => h ((apply_pos_iff pg.controls).mp hc)), if_neg h]

/-- The error-filling handler never overwrites a value already present. -/
theorem fillErrors_preserve (hs : List String) :
    ∀ (d : RowData) (k : String) (v : String),
      d k = some v → fillErrors hs d k = some v := by
  induction hs with
  | nil => intro d k v h; exact h
  | cons a t ih =>
    intro d k v h
    simp only [fillErrors, List.foldl_cons] at *
    by_cases ha : (d a).isSome
    · rw [if_pos ha]
      exact ih d k v h
    · rw [if_neg ha]
      refine ih _ k v ?_
      simp only [dictSet]
      by_cases hk : k = a
      · subst hk
        rw [h] at ha
        exact absurd rfl ha
      · rw [if_neg hk]
        exact h

/-- The error-filling handler sets every listed column that is absent from
the record to the Error sentinel. -/
theorem fillErrors_mem (hs : List String) :
    ∀ (d : RowData) (k : String), k ∈ hs → d k = none →
      fillErrors hs d k = some "Error" := by
  induction hs with
  | nil => intro d k hk _; cases hk
  | cons a t ih =>
    intro d k hk hnone
    simp only [fillErrors, List.foldl_cons]
    by_cases hka : k = a
    · subst hka
      rw [if_neg (by rw [hnone]; exact Bool.noConfusion)]
      refine fillErrors_preserve t _ k "Error" ?_
      simp [dictSet]
    · have hkt : k ∈ t := by
        cases hk with
        | head => exact absurd rfl hka
        | tail _ h => exact h
      by_cases ha : (d a).isSome
      · rw [if_pos ha]
        exact ih d k hkt hnone
      · rw [if_neg ha]
        refine ih _ k hkt ?_
        simp only [dictSet]
        rw [if_neg hka]
        exact hnone

/-- Claim C1: when an uncaught failure is raised at a navigation or wait
point while fetching one detail page (the only such uncaught point is the
goto navigation; the ready wait has its own pass handler), extract_detail_page
does not propagate and returns a record in which every column of the output
schema carries the sentinel Error, for every url and every page. -/
theorem c1_nav_failure_yields_error_record (url : String) (pg : DetailPage)
    (f : NavFail) (k : String) (hf : uncaughtNavWait f = true)
    (hk : k ∈ ALL_HEADERS) :
    extract_detail_page url pg (some f) k = some "Error" := by
  cases f with
  | atWaitReady => exact absurd hf (by decide)
  | atGoto =>
    show fillErrors ALL_HEADERS emptyRow k = some "Error"
    exact fillErrors_mem ALL_HEADERS emptyRow k hk rfl

/-- Claim C1, witness: the goto failure point is uncaught, Validity is a
schema column, and the returned record carries Error there on a concrete
fetch. -/
theorem c1_nav_failure_yields_error_record_witness :
    uncaughtNavWait NavFail.atGoto = true ∧
      "Validity" ∈ ALL_HEADERS ∧
      extract_detail_page "u" blankPage (some NavFail.atGoto) "Validity"
        = some "Error" :=
  ⟨rfl, by decide,
    c1_nav_failure_yields_error_record "u" blankPage NavFail.atGoto "Validity"
      rfl (by decide)⟩

/-- A schema column always resolves in the projected row, to the record
value when present and to the N/A sentinel otherwise. -/
theorem safe_row_lookup_mem (hs : List String) (d : RowData) (k : String)
    (hk : k ∈ hs) :
    rowLookup k (safe_row hs d) = some ((d k).getD "N/A") := by
  induction hs with
  | nil => cases hk
  | cons a t ih =>
    simp only [safe_row, List.map_cons, rowLookup]
    by_cases hka : a = k
    · subst hka
      rw [if_pos rfl]
    · rw [if_neg hka]
      have hkt : k ∈ t := by
        cases hk with
        | head => exact absurd rfl hka
        | tail _ h => exact h
      exact ih hkt

/-- A column outside the schema never appears in the projected row. -/
theorem safe_row_lookup_not_mem (hs : List String) (d : RowData) (k : String)
    (hk : k ∉ hs) :
    rowLookup k (safe_row hs d) = none := by
  induction hs with
  | nil => rfl
  | cons a t ih =>
    simp only [safe_row, List.map_cons, rowLookup]
    have hka : a ≠ k := fun h => hk (h ▸ List.mem_cons_self a t)
    rw [if_neg hka]
    exact ih (fun h => hk (List.mem_cons_of_mem a h))

/-- Claim C6: every row appended to a sink has a value for every column of
that sink schema; a schema column absent from the extracted record is filled
with the N/A sentinel before the write, so no written row has a missing key. -/
theorem c6_safe_row_fills_all_columns (d : RowData) (hs : List String)
    (k : String) (hk : k ∈ hs) :
    (rowLookup k (safe_row hs d)).isSome = true ∧
      (d k = none → rowLookup k (safe_row hs d) = some "N/A") := by
  constructor
  · rw [safe_row_lookup_mem hs d k hk]
    rfl
  · intro hnone
    rw [safe_row_lookup_mem hs d k hk, hnone]
    rfl

/-- Claim C6, witness: the Validity column of the ministry schema is filled
with N/A on a record that never resolved it. -/
theorem c6_safe_row_fills_all_columns_witness :
    "Validity" ∈ MINISTRY_HEADERS ∧
      ((rowLookup "Validity" (safe_row MINISTRY_HEADERS emptyRow)).isSome = true ∧
        (emptyRow "Validity" = none →
          rowLookup "Validity" (safe_row MINISTRY_HEADERS emptyRow) = some "N/A")) :=
  ⟨by decide,
    c6_safe_row_fills_all_columns emptyRow MINISTRY_HEADERS "Validity" (by decide)⟩

/-- Claim C8: the forced value derived from the active filter label
overwrites the banner-derived value.  Whatever ministry name the record
extracted, forcing Ministry Name to y makes the written ministry row carry y
in its Ministry Name column, and symmetrically for Department Name in the
department phase. -/
theorem c8_forced_field_override (d : RowData) (x y x2 y2 : String) :
    (d "Ministry Name" = some x →
      rowLookup "Ministry Name"
        (safe_row MINISTRY_HEADERS (applyExtras [("Ministry Name", y)] d))
        = some y) ∧
    (d "Department Name" = some x2 →
      rowLookup "Department Name"
        (safe_row DEPT_HEADERS (applyExtras [("Department Name", y2)] d))
        = some y2) := by
  constructor
  · intro _
    rw [safe_row_lookup_mem MINISTRY_HEADERS _ "Ministry Name" (by decide)]
    simp [applyExtras, dictSet]
  · intro _
    rw [safe_row_lookup_mem DEPT_HEADERS _ "Department Name" (by decide)]
    simp [applyExtras, dictSet]

/-- Claim C8, witness: a record whose banner-derived ministry name is X and
department name is D0 is written with the phase-forced values Y and Y2. -/
theorem c8_forced_field_override_witness :
    bannerNamesRow "Ministry Name" = some "X" ∧
      bannerNamesRow "Department Name" = some "D0" ∧
      rowLookup "Ministry Name"
        (safe_row MINISTRY_HEADERS
          (applyExtras [("Ministry Name", "Y")] bannerNamesRow)) = some "Y" ∧
      rowLookup "Department Name"
        (safe_row DEPT_HEADERS
          (applyExtras [("Department Name", "Y2")] bannerNamesRow)) = some "Y2" :=
  ⟨rfl, rfl,
    (c8_forced_field_override bannerNamesRow "X" "Y" "D0" "Y2").1 rfl,
    (c8_forced_field_override bannerNamesRow "X" "Y" "D0" "Y2").2 rfl⟩

/-- Claim C10: rows appended to a sink are projected onto exactly the sink
schema; a field present in the extracted record but absent from the active
schema is discarded and never written. -/
theorem c10_projection_drops_extra_fields (d : RowData) (hs : List String)
    (k : String) (hk : k ∉ hs) :
    rowLookup k (safe_row hs d) = none :=
  safe_row_lookup_not_mem hs d k hk

/-- Claim C10, witness: the banner-derived Department Name of a record is
dropped when writing under the ministry schema, which has no such column. -/
theorem c10_projection_drops_extra_fields_witness :
    "Department Name" ∉ MINISTRY_HEADERS ∧
      bannerNamesRow "Department Name" = some "D0" ∧
      rowLookup "Department Name" (safe_row MINISTRY_HEADERS bannerNamesRow)
        = none :=
  ⟨by decide, rfl,
    c10_projection_drops_extra_fields bannerNamesRow MINISTRY_HEADERS
      "Department Name" (by decide)⟩

/-- Writes against an existing file never emit a header row. -/
theorem headerRowsWritten_some (hs : List String) :
    ∀ (rows : List (List (String × String))) (ls : List CsvLine),
      headerRowsWritten hs (some ls) rows = 0 := by
  intro rows
  induction rows with
  | nil => intro ls; rfl
  | cons r rs ih =>
    intro ls
    simp only [headerRowsWritten, write_to_csv]
    exact ih (ls ++ [CsvLine.dataRow r])

/-- Writes against an existing file append the record rows in order after
the existing content. -/
theorem runWrites_some (hs : List String) :
    ∀ (rows : List (List (String × String))) (ls : List CsvLine),
      runWrites hs (some ls) rows
        = some (ls ++ rows.map CsvLine.dataRow) := by
  intro rows
  induction rows with
  | nil => intro ls; simp [runWrites]
  | cons r rs ih =>
    intro ls
    simp only [runWrites, write_to_csv, List.map_cons]
    rw [ih (ls ++ [CsvLine.dataRow r])]
    simp

/-- Claim C7: across any run of writes to one sink path, at most one header
row is emitted; a header is written only when the file is absent at write
time, and a pre-existing file, partial or not, is extended by appending its
record rows after the existing lines, never overwritten. -/
theorem c7_header_written_at_most_once (hs : List String)
    (rows : List (List (String × String))) (init : Option (List CsvLine))
    (ls : List CsvLine) :
    headerRowsWritten hs init rows ≤ 1 ∧
      headerRowsWritten hs (some ls) rows = 0 ∧
      runWrites hs (some ls) rows = some (ls ++ rows.map CsvLine.dataRow) := by
  refine ⟨?_, headerRowsWritten_some hs rows ls, runWrites_some hs rows ls⟩
  cases init with
  | some ls2 => rw [headerRowsWritten_some hs rows ls2]; exact Nat.zero_le 1
  | none =>
    cases rows with
    | nil => exact Nat.zero_le 1
    | cons r rs =>
      simp only [headerRowsWritten, write_to_csv]
      rw [headerRowsWritten_some hs rs]

/-- Claim C9, counterexample.  The claim asserts that any simulated results
sequence of N pages whose last next-control is absent or disabled and whose
earlier controls are present and enabled yields exactly N page-visits.  On a
two-page sequence whose first page renders no cards, the slowed variant
breaks out of the walk at the first page and visits one page, not two. -/
theorem c9_empty_page_counterexample :
    goodChain cexPages = true ∧ cexPages.length = 2 ∧
      handle_pagination_visits_v2 cexPages ≠ 2 := by
  refine ⟨by decide, by decide, by decide⟩

/-- A page with an enabled, clickable next control advances the first walk. -/
theorem visits_v1_cons_enabled (p : ResultsPage) (rest : List ResultsPage)
    (h : enabledNext p = true) :
    handle_pagination_visits_v1 (p :: rest)
      = 1 + handle_pagination_visits_v1 rest := by
  cases hn : p.next with
  | none =>
    simp only [enabledNext, hn] at h
    exact absurd h (by decide)
  | some c =>
    simp only [enabledNext, hn, Bool.and_eq_true, Bool.not_eq_true'] at h
    simp [handle_pagination_visits_v1, hn, h.1, h.2]

/-- A terminal page ends the first walk after its own visit. -/
theorem visits_v1_cons_terminal (p : ResultsPage) (rest : List ResultsPage)
    (h : terminalNext p = true) :
    handle_pagination_visits_v1 (p :: rest) = 1 := by
  cases hn : p.next with
  | none => simp [handle_pagination_visits_v1, hn]
  | some c =>
    simp only [terminalNext, hn] at h
    simp [handle_pagination_visits_v1, hn, h]

/-- A carded page with an enabled, clickable next control advances the
second walk. -/
theorem visits_v2_cons_enabled (p : ResultsPage) (rest : List ResultsPage)
    (h : enabledNext p = true) (hc : p.cards.isEmpty = false) :
    handle_pagination_visits_v2 (p :: rest)
      = 1 + handle_pagination_visits_v2 rest := by
  cases hn : p.next with
  | none =>
    simp only [enabledNext, hn] at h
    exact absurd h (by decide)
  | some c =>
    simp only [enabledNext, hn, Bool.and_eq_true, Bool.not_eq_true'] at h
    simp [handle_pagination_visits_v2, hn, hc, h.1, h.2]

/-- A carded terminal page ends the second walk after its own visit. -/
theorem visits_v2_cons_terminal (p : ResultsPage) (rest : List ResultsPage)
    (h : terminalNext p = true) (hc : p.cards.isEmpty = false) :
    handle_pagination_visits_v2 (p :: rest) = 1 := by
  cases hn : p.next with
  | none => simp [handle_pagination_visits_v2, hn, hc]
  | some c =>
    simp only [terminalNext, hn] at h
    simp [handle_pagination_visits_v2, hn, h, hc]

/-- Claim C9, amended: for every simulated results sequence of N pages
(N at least 1) in which every page renders at least one card, page N has its
next control absent or disabled, and every earlier page has a present,
enabled, clickable next control, both pagination walkers visit exactly N
pages and then terminate (the walk functions are total, and the model walk
ends by the break branch, not by an error). -/
theorem c9_pagination_visits_amended (ps : List ResultsPage)
    (hchain : goodChain ps = true) (hcards : allPagesHaveCards ps = true) :
    handle_pagination_visits_v1 ps = ps.length ∧
      handle_pagination_visits_v2 ps = ps.length := by
  induction ps with
  | nil => exact absurd hchain (by decide)
  | cons p rest ih =>
    cases rest with
    | nil =>
      have hterm : terminalNext p = true := hchain
      have hc : p.cards.isEmpty = false := by
        simp only [allPagesHaveCards, List.all_cons, List.all_nil,
          Bool.and_true, Bool.not_eq_true'] at hcards
        exact hcards
      rw [visits_v1_cons_terminal p [] hterm, visits_v2_cons_terminal p [] hterm hc]
      exact ⟨rfl, rfl⟩
    | cons q rest2 =>
      have hen : enabledNext p = true := by
        simp only [goodChain, Bool.and_eq_true] at hchain
        exact hchain.1
      have hchain2 : goodChain (q :: rest2) = true := by
        simp only [goodChain, Bool.and_eq_true] at hchain
        exact hchain.2
      have hcards2 : allPagesHaveCards (q :: rest2) = true := by
        simp only [allPagesHaveCards, List.all_cons, Bool.and_eq_true] at hcards ⊢
        exact hcards.2
      have hc : p.cards.isEmpty = false := by
        simp only [allPagesHaveCards, List.all_cons, Bool.and_eq_true,
          Bool.not_eq_true'] at hcards
        exact hcards.1
      obtain ⟨ih1, ih2⟩ := ih hchain2 hcards2
      rw [visits_v1_cons_enabled p (q :: rest2) hen,
        visits_v2_cons_enabled p (q :: rest2) hen hc, ih1, ih2]
      simp [List.length_cons]
      omega

/-- Claim C9, witness: a concrete two-page sequence with cards on both pages
and an enabled then disabled next control is visited exactly twice by both
walkers. -/
theorem c9_pagination_visits_amended_witness :
    goodChain goodPages = true ∧ allPagesHaveCards goodPages = true ∧
      handle_pagination_visits_v1 goodPages = 2 ∧
      handle_pagination_visits_v2 goodPages = 2 :=
  ⟨by decide, by decide,
    (c9_pagination_visits_amended goodPages (by decide) (by decide)).1,
    (c9_pagination_visits_amended goodPages (by decide) (by decide)).2⟩

/-- The filter loop, started at any view generation, touches each remaining
option index exactly once in order, recovers exactly at the failing options,
and always resolves and reloads against the current view generation. -/
theorem click_filter_loop_spec (fails : Nat → Bool) (idxs : List Nat) :
    ∀ g : Nat,
      (click_filter_loop fails g idxs).map eventIdx = idxs ∧
      kindsMatch fails (click_filter_loop fails g idxs) = true ∧
      freshlyResolved g (click_filter_loop fails g idxs) = true := by
  induction idxs with
  | nil => intro g; exact ⟨rfl, rfl, rfl⟩
  | cons i rest ih =>
    intro g
    cases hf : fails i with
    | true =>
      obtain ⟨ih1, ih2, ih3⟩ := ih (g + 1)
      refine ⟨?_, ?_, ?_⟩
      · simp [click_filter_loop, hf, eventIdx, ih1]
      · simp [click_filter_loop, hf, kindsMatch, eventIsRecovered, eventIdx] at ih2 ⊢
        exact ih2
      · simp [click_filter_loop, hf, freshlyResolved, ih3]
    | false =>
      obtain ⟨ih1, ih2, ih3⟩ := ih g
      refine ⟨?_, ?_, ?_⟩
      · simp [click_filter_loop, hf, eventIdx, ih1]
      · simp [click_filter_loop, hf, kindsMatch, eventIsRecovered, eventIdx] at ih2 ⊢
        exact ih2
      · simp [click_filter_loop, hf, freshlyResolved, ih3]

/-- Claim C4: when applying or processing one filter option raises, the
iterator reloads the results view (one generation step, after a bounded
recovery sleep) and re-enumerates the filter options of the group against
the freshly reloaded view, the container being re-derived when the option
locators next resolve; the failed option is abandoned, never retried, and
the loop resumes with the next remaining option: the trace visits each
option index of the enumeration exactly once in order, marks exactly the
failing options as recovered, and every processed option resolves against
the latest view generation. -/
theorem c4_filter_recovery_resumes_fresh (fails : Nat → Bool) (total : Nat) :
    (click_filter_and_process fails total).map eventIdx = List.range total ∧
      kindsMatch fails (click_filter_and_process fails total) = true ∧
      freshlyResolved 0 (click_filter_and_process fails total) = true :=
  click_filter_loop_spec fails (List.range total) 0
